import Mathlib

/-!
Verification of the localtunnel-server core against its specification.

The definitions below are shallow embeddings of the JavaScript source:

* `AgentState` / `agentStep` embed `TunnelAgent` (the per-client TCP listener
  with its idle-socket pool and waiter queue);
* `CState` / `clientStep` embed `Client` (online/offline lifecycle, grace
  timer, `close`);
* `MState` / `newClientRun` / `removeClient` embed `ClientManager`
  (registry, port pool, identifier-based reservation);
* `publicDispatch` embeds the public front-end's request routing;
* `matchesSubdomainRegex` embeds the admin route's subdomain validation regex;
* `validateRequest` embeds `HmacAuthenticator` together with `NonceCache`.

Machine integers are modelled as `Int`/`Nat` (the JavaScript numbers involved
stay far below 2^53, where JS arithmetic is exact), fallible operations return
sum types, and the event-driven parts are modelled as explicit step functions
over state types, folded over event lists.
-/

/-! ### TunnelAgent (per-client socket pool)

Embeds the `TunnelAgent` class: fields from its constructor, and the
`_onConnection`, socket `close` handler, `createConnection` and `_onClose`
behaviours as a step function.  Sockets and waiting `createConnection`
callbacks are named by numeric identifiers.  The field `openSockets` is
bookkeeping for Node's per-socket `close` events: it lists the accepted
sockets whose `close` handler has not yet fired (the handler is attached
once per accepted socket and fires once), so that event traces can be
restricted to the ones the runtime can deliver. -/

structure AgentState where
  connectedSockets : Int
  maxTcpSockets : Nat
  rejectedConnections : Nat
  availableSockets : List Nat
  waitingCreateConn : List Nat
  closed : Bool
  openSockets : List Nat
deriving DecidableEq, Repr

/-- Constructor of `TunnelAgent`: `maxTcpSockets = options.maxTcpSockets || 10`
(`none` models an absent option, `some 0` the falsy number 0). -/
def mkAgent (maxOpt : Option Nat) : AgentState :=
  { connectedSockets := 0
    maxTcpSockets := match maxOpt with
      | none => 10
      | some 0 => 10
      | some n => n
    rejectedConnections := 0
    availableSockets := []
    waitingCreateConn := []
    closed := false
    openSockets := [] }

/-- The JSON payload written by `_onConnection` when a connection is rejected
(`JSON.stringify` of the object literal in the source). -/
def rejectionJson (maxS : Nat) (cur : Int) (avail wait : Nat) : String :=
  "\x7b\"error\":\"Too Many Connections\",\"code\":429,\"max_sockets\":"
    ++ toString maxS
    ++ ",\"current_sockets\":" ++ toString cur
    ++ ",\"available_sockets\":" ++ toString avail
    ++ ",\"waiting_requests\":" ++ toString wait
    ++ "\x7d"

/-- The synthetic HTTP/1.1 429 response written by `_onConnection` on an
over-limit connection: status line, headers in write order, and JSON body. -/
structure Rejection where
  statusLine : String
  headers : List (String × String)
  body : String
deriving DecidableEq, Repr

/-- Builds the 429 response exactly as the writes in `_onConnection` do. -/
def mkRejection (s : AgentState) : Rejection :=
  let payload := rejectionJson s.maxTcpSockets s.connectedSockets
      s.availableSockets.length s.waitingCreateConn.length
  { statusLine := "HTTP/1.1 429 Too Many Connections"
    headers :=
      [ ("Content-Type", "application/json")
      , ("Content-Length", toString payload.length)
      , ("X-LT-Max-Sockets", toString s.maxTcpSockets)
      , ("X-LT-Current-Sockets", toString s.connectedSockets)
      , ("X-LT-Available-Sockets", toString s.availableSockets.length)
      , ("X-LT-Waiting-Requests", toString s.waitingCreateConn.length)
      , ("Connection", "close") ]
    body := payload }

/-- Observable effects of one agent step: events emitted, callbacks invoked,
bytes written. -/
inductive AgentEffect where
  | emitOnline
  | emitOffline
  | emitEnd
  | rejected (sock : Nat) (r : Rejection)
  | sockEnded (sock : Nat)
  | served (waiter sock : Nat)
  | pooled (sock : Nat)
  | handedFromPool (waiter sock : Nat)
  | queuedWaiter (waiter : Nat)
  | waiterFailedClosed (waiter : Nat)
deriving DecidableEq, Repr

/-- Events driving a `TunnelAgent`: an incoming TCP connection, a socket's
`close` event, a `createConnection` call, and the server's `close`. -/
inductive AgentEvent where
  | connect (sock : Nat)
  | sockClose (sock : Nat)
  | createConn (waiter : Nat)
  | serverClose
deriving DecidableEq, Repr

/-- One step of the agent, translated clause by clause from `_onConnection`,
the socket `close` handler, `createConnection` and `_onClose`. -/
def agentStep (s : AgentState) : AgentEvent → AgentState × List AgentEffect
  | .connect sock =>
    if s.connectedSockets ≥ (s.maxTcpSockets : Int) then
      ({ s with rejectedConnections := s.rejectedConnections + 1 },
        [.rejected sock (mkRejection s), .sockEnded sock])
    else
      let onlineFx : List AgentEffect :=
        if s.connectedSockets = 0 then [.emitOnline] else []
      let s1 := { s with connectedSockets := s.connectedSockets + 1,
                         openSockets := sock :: s.openSockets }
      match s1.waitingCreateConn with
      | w :: rest =>
        ({ s1 with waitingCreateConn := rest }, onlineFx ++ [.served w sock])
      | [] =>
        ({ s1 with availableSockets := s1.availableSockets ++ [sock] },
          onlineFx ++ [.pooled sock])
  | .sockClose sock =>
    if sock ∈ s.openSockets then
      let s1 := { s with connectedSockets := s.connectedSockets - 1,
                         openSockets := s.openSockets.erase sock,
                         availableSockets := s.availableSockets.erase sock }
      if s1.connectedSockets ≤ 0 then (s1, [.emitOffline]) else (s1, [])
    else (s, [])
  | .createConn w =>
    if s.closed then (s, [.waiterFailedClosed w])
    else
      match s.availableSockets with
      | sock :: rest =>
        ({ s with availableSockets := rest }, [.handedFromPool w sock])
      | [] =>
        ({ s with waitingCreateConn := s.waitingCreateConn ++ [w] },
          [.queuedWaiter w])
  | .serverClose =>
    ({ s with closed := true, waitingCreateConn := [] },
      s.waitingCreateConn.map (fun w => .waiterFailedClosed w) ++ [.emitEnd])

/-- Folds a list of events through `agentStep`, keeping only the state. -/
def agentRun (s : AgentState) : List AgentEvent → AgentState
  | [] => s
  | e :: es => agentRun (agentStep s e).fst es

/-- Which events the Node runtime can deliver in a given state: a connection
arrives with a fresh socket, and a socket's `close` handler fires only for an
accepted socket whose handler has not fired yet. -/
def agentEventOk (s : AgentState) : AgentEvent → Prop
  | .connect sock => sock ∉ s.openSockets
  | .sockClose sock => sock ∈ s.openSockets
  | .createConn _ => True
  | .serverClose => True

instance (s : AgentState) (e : AgentEvent) : Decidable (agentEventOk s e) := by
  cases e <;> simp only [agentEventOk] <;> infer_instance

/-- Validity of a whole event trace from a state. -/
inductive AgentTraceOk : AgentState → List AgentEvent → Prop
  | nil (s : AgentState) : AgentTraceOk s []
  | cons {s : AgentState} {e : AgentEvent} {es : List AgentEvent} :
      agentEventOk s e → AgentTraceOk (agentStep s e).fst es →
      AgentTraceOk s (e :: es)

/-- Inductive invariant for the socket cap: `connectedSockets` counts the
accepted open sockets, those are pairwise distinct, and the count never
exceeds `maxTcpSockets`. -/
def agentInv (s : AgentState) : Prop :=
  s.connectedSockets = (s.openSockets.length : Int) ∧
  s.openSockets.Nodup ∧
  s.connectedSockets ≤ (s.maxTcpSockets : Int)

theorem agentInv_mkAgent (maxOpt : Option Nat) : agentInv (mkAgent maxOpt) := by
  refine ⟨rfl, List.nodup_nil, ?_⟩
  simp [mkAgent]

theorem agentStep_maxTcpSockets (s : AgentState) (e : AgentEvent) :
    (agentStep s e).fst.maxTcpSockets = s.maxTcpSockets := by
  cases e with
  | connect sock =>
    simp only [agentStep]
    split
    · rfl
    · split <;> rfl
  | sockClose sock =>
    simp only [agentStep]
    split
    · split <;> rfl
    · rfl
  | createConn w =>
    simp only [agentStep]
    split
    · rfl
    · split <;> rfl
  | serverClose => rfl

theorem agentInv_step (s : AgentState) (e : AgentEvent)
    (hok : agentEventOk s e) (h : agentInv s) : agentInv (agentStep s e).fst := by
  obtain ⟨hcount, hnodup, hle⟩ := h
  cases e with
  | connect sock =>
    simp only [agentEventOk] at hok
    by_cases hcap : s.connectedSockets ≥ (s.maxTcpSockets : Int)
    · simp only [agentStep, if_pos hcap]
      exact ⟨hcount, hnodup, hle⟩
    · have hlt : s.connectedSockets < (s.maxTcpSockets : Int) := lt_of_not_ge hcap
      simp only [agentStep, if_neg hcap]
      cases hw : s.waitingCreateConn with
      | cons w rest =>
        simp only [hw]
        refine ⟨?_, List.Nodup.cons hok hnodup,
          show s.connectedSockets + 1 ≤ (s.maxTcpSockets : Int) by omega⟩
        show s.connectedSockets + 1 = ((sock :: s.openSockets).length : Int)
        simp only [List.length_cons]
        omega
      | nil =>
        simp only [hw]
        refine ⟨?_, List.Nodup.cons hok hnodup,
          show s.connectedSockets + 1 ≤ (s.maxTcpSockets : Int) by omega⟩
        show s.connectedSockets + 1 = ((sock :: s.openSockets).length : Int)
        simp only [List.length_cons]
        omega
  | sockClose sock =>
    simp only [agentEventOk] at hok
    have hlen : (s.openSockets.erase sock).length = s.openSockets.length - 1 :=
      List.length_erase_of_mem hok
    have hpos : 0 < s.openSockets.length := List.length_pos.mpr
      (List.ne_nil_of_mem hok)
    have hcount' : s.connectedSockets - 1 = ((s.openSockets.erase sock).length : Int) := by
      rw [hlen, hcount]
      omega
    simp only [agentStep, if_pos hok]
    by_cases hz : s.connectedSockets - 1 ≤ (0 : Int)
    · simp only [if_pos hz]
      exact ⟨hcount', List.Nodup.erase sock hnodup,
        show s.connectedSockets - 1 ≤ (s.maxTcpSockets : Int) by omega⟩
    · simp only [if_neg hz]
      exact ⟨hcount', List.Nodup.erase sock hnodup,
        show s.connectedSockets - 1 ≤ (s.maxTcpSockets : Int) by omega⟩
  | createConn w =>
    by_cases hcl : s.closed = true
    · simp only [agentStep, if_pos hcl]
      exact ⟨hcount, hnodup, hle⟩
    · simp only [agentStep, if_neg hcl]
      cases ha : s.availableSockets with
      | cons sock rest =>
        simp only [ha]
        exact ⟨hcount, hnodup, hle⟩
      | nil =>
        simp only [ha]
        exact ⟨hcount, hnodup, hle⟩
  | serverClose => exact ⟨hcount, hnodup, hle⟩

theorem agentInv_run (s : AgentState) (evs : List AgentEvent)
    (h : agentInv s) (hok : AgentTraceOk s evs) : agentInv (agentRun s evs) := by
  induction evs generalizing s with
  | nil => exact h
  | cons e es ih =>
    cases hok with
    | cons h1 h2 => exact ih _ (agentInv_step s e h1 h) h2

theorem agentRun_maxTcpSockets (s : AgentState) (evs : List AgentEvent) :
    (agentRun s evs).maxTcpSockets = s.maxTcpSockets := by
  induction evs generalizing s with
  | nil => rfl
  | cons e es ih => rw [agentRun, ih, agentStep_maxTcpSockets]

/-- Claim C4: over every deliverable event sequence the agent never holds more
than `maxTcpSockets` connected sockets, and a connection arriving at the cap
is answered by the synthetic 429 response (with the `X-LT-Max-Sockets`,
`X-LT-Current-Sockets`, `X-LT-Available-Sockets`, `X-LT-Waiting-Requests`
headers and the JSON body), the socket is ended, the rejection counter is
incremented, and `connectedSockets` is unchanged. -/
theorem tunnelAgent_socket_cap_and_429_rejection
    (s0 : AgentState) (evs : List AgentEvent)
    (h0 : agentInv s0) (hok : AgentTraceOk s0 evs) :
    ((agentRun s0 evs).connectedSockets ≤ ((agentRun s0 evs).maxTcpSockets : Int)) ∧
    (∀ sock, (agentRun s0 evs).connectedSockets = ((agentRun s0 evs).maxTcpSockets : Int) →
      agentStep (agentRun s0 evs) (.connect sock) =
        ({ agentRun s0 evs with
            rejectedConnections := (agentRun s0 evs).rejectedConnections + 1 },
         [.rejected sock (mkRejection (agentRun s0 evs)), .sockEnded sock])) ∧
    (∀ s : AgentState, (mkRejection s).headers =
        [ ("Content-Type", "application/json")
        , ("Content-Length", toString (rejectionJson s.maxTcpSockets s.connectedSockets
            s.availableSockets.length s.waitingCreateConn.length).length)
        , ("X-LT-Max-Sockets", toString s.maxTcpSockets)
        , ("X-LT-Current-Sockets", toString s.connectedSockets)
        , ("X-LT-Available-Sockets", toString s.availableSockets.length)
        , ("X-LT-Waiting-Requests", toString s.waitingCreateConn.length)
        , ("Connection", "close") ] ∧
      (mkRejection s).body = rejectionJson s.maxTcpSockets s.connectedSockets
        s.availableSockets.length s.waitingCreateConn.length) := by
  refine ⟨(agentInv_run s0 evs h0 hok).2.2, ?_, fun s => ⟨rfl, rfl⟩⟩
  intro sock hfull
  have hge : (agentRun s0 evs).connectedSockets ≥
      (((agentRun s0 evs).maxTcpSockets : Nat) : Int) := le_of_eq hfull.symm
  simp only [agentStep, if_pos hge]

/-- Closed instance of C4 at a concrete agent and trace. -/
theorem tunnelAgent_socket_cap_witness :
    (agentRun (mkAgent (some 2)) [.connect 1, .connect 2]).connectedSockets
      ≤ ((agentRun (mkAgent (some 2)) [.connect 1, .connect 2]).maxTcpSockets : Int) :=
  (tunnelAgent_socket_cap_and_429_rejection (mkAgent (some 2)) [.connect 1, .connect 2]
    (agentInv_mkAgent (some 2))
    (AgentTraceOk.cons (by decide) (AgentTraceOk.cons (by decide)
      (AgentTraceOk.nil _)))).1

/-- Inductive invariant of claim C5: a non-empty waiter queue forces an empty
idle-socket pool. -/
def waitersPoolInv (s : AgentState) : Prop :=
  s.waitingCreateConn ≠ [] → s.availableSockets = []

theorem waitersPoolInv_step (s : AgentState) (e : AgentEvent)
    (h : waitersPoolInv s) : waitersPoolInv (agentStep s e).fst := by
  cases e with
  | connect sock =>
    by_cases hcap : s.connectedSockets ≥ (s.maxTcpSockets : Int)
    · simpa only [agentStep, if_pos hcap] using h
    · simp only [agentStep, if_neg hcap]
      cases hw : s.waitingCreateConn with
      | cons w rest =>
        simp only [hw]
        intro _
        exact h (by simp [hw])
      | nil =>
        simp only [hw]
        intro hne
        exact absurd rfl hne
  | sockClose sock =>
    by_cases hmem : sock ∈ s.openSockets
    · simp only [agentStep, if_pos hmem]
      by_cases hz : s.connectedSockets - 1 ≤ (0 : Int)
      · simp only [if_pos hz]
        intro hne
        rw [h hne]
        rfl
      · simp only [if_neg hz]
        intro hne
        rw [h hne]
        rfl
    · simpa only [agentStep, if_neg hmem] using h
  | createConn w =>
    by_cases hcl : s.closed = true
    · simpa only [agentStep, if_pos hcl] using h
    · simp only [agentStep, if_neg hcl]
      cases ha : s.availableSockets with
      | cons sock rest =>
        simp only [ha]
        intro hne
        exact absurd ha (by rw [h hne]; simp)
      | nil =>
        simp only [ha]
        intro _
        rfl
  | serverClose =>
    intro hne
    exact absurd rfl hne

theorem waitersPoolInv_run (s : AgentState) (evs : List AgentEvent)
    (h : waitersPoolInv s) : waitersPoolInv (agentRun s evs) := by
  induction evs generalizing s with
  | nil => exact h
  | cons e es ih => exact ih _ (waitersPoolInv_step s e h)

theorem served_only_from_head (s : AgentState) (e : AgentEvent) (w sock : Nat)
    (hmem : AgentEffect.served w sock ∈ (agentStep s e).snd) :
    s.waitingCreateConn.head? = some w ∧
    (agentStep s e).fst.waitingCreateConn = s.waitingCreateConn.tail := by
  cases e with
  | connect sock' =>
    by_cases hcap : s.connectedSockets ≥ (s.maxTcpSockets : Int)
    · simp only [agentStep, if_pos hcap] at hmem
      simp at hmem
    · simp only [agentStep, if_neg hcap] at hmem ⊢
      cases hw : s.waitingCreateConn with
      | cons w' rest =>
        simp only [hw] at hmem ⊢
        by_cases hz : s.connectedSockets = 0 <;>
          simp only [if_pos, if_neg, hz] at hmem <;>
          simp at hmem
        · obtain ⟨hw', hs'⟩ := hmem
          subst hw'
          exact ⟨rfl, rfl⟩
        · obtain ⟨hw', hs'⟩ := hmem
          subst hw'
          exact ⟨rfl, rfl⟩
      | nil =>
        simp only [hw] at hmem
        by_cases hz : s.connectedSockets = 0 <;>
          simp only [if_pos, if_neg, hz] at hmem <;>
          simp at hmem
  | sockClose sock' =>
    by_cases hmem' : sock' ∈ s.openSockets
    · simp only [agentStep, if_pos hmem'] at hmem
      by_cases hz : s.connectedSockets - 1 ≤ (0 : Int) <;>
        simp only [if_pos, if_neg, hz] at hmem <;> simp at hmem
    · simp only [agentStep, if_neg hmem'] at hmem
      simp at hmem
  | createConn w' =>
    by_cases hcl : s.closed = true
    · simp only [agentStep, if_pos hcl] at hmem
      simp at hmem
    · simp only [agentStep, if_neg hcl] at hmem
      cases ha : s.availableSockets with
      | cons sock'' rest => simp only [ha] at hmem; simp at hmem
      | nil => simp only [ha] at hmem; simp at hmem
  | serverClose =>
    simp only [agentStep] at hmem
    simp at hmem

theorem queued_appends_at_tail (s : AgentState) (e : AgentEvent) (w : Nat)
    (hmem : AgentEffect.queuedWaiter w ∈ (agentStep s e).snd) :
    (agentStep s e).fst.waitingCreateConn = s.waitingCreateConn ++ [w] := by
  cases e with
  | connect sock' =>
    by_cases hcap : s.connectedSockets ≥ (s.maxTcpSockets : Int)
    · simp only [agentStep, if_pos hcap] at hmem
      simp at hmem
    · simp only [agentStep, if_neg hcap] at hmem ⊢
      cases hw : s.waitingCreateConn with
      | cons w' rest =>
        simp only [hw] at hmem
        by_cases hz : s.connectedSockets = 0 <;>
          simp only [if_pos, if_neg, hz] at hmem <;> simp at hmem
      | nil =>
        simp only [hw] at hmem
        by_cases hz : s.connectedSockets = 0 <;>
          simp only [if_pos, if_neg, hz] at hmem <;> simp at hmem
  | sockClose sock' =>
    by_cases hmem' : sock' ∈ s.openSockets
    · simp only [agentStep, if_pos hmem'] at hmem
      by_cases hz : s.connectedSockets - 1 ≤ (0 : Int) <;>
        simp only [if_pos, if_neg, hz] at hmem <;> simp at hmem
    · simp only [agentStep, if_neg hmem'] at hmem
      simp at hmem
  | createConn w' =>
    by_cases hcl : s.closed = true
    · simp only [agentStep, if_pos hcl] at hmem
      simp at hmem
    · simp only [agentStep, if_neg hcl] at hmem ⊢
      cases ha : s.availableSockets with
      | cons sock'' rest =>
        simp only [ha] at hmem
        simp at hmem
      | nil =>
        simp only [ha] at hmem ⊢
        simp at hmem
        subst hmem
        rfl
  | serverClose =>
    simp only [agentStep] at hmem
    simp at hmem

/-- Claim C5: whenever the waiter queue is non-empty the idle pool is empty
(preserved from any state satisfying it, over every interleaving of events),
a served waiter is always the head of the queue (with the rest of the queue
kept in order), and a newly queued waiter is appended at the tail — i.e.
waiters are served in strictly FIFO order. -/
theorem tunnelAgent_waiters_exclusive_and_fifo
    (s0 : AgentState) (evs : List AgentEvent) (h0 : waitersPoolInv s0) :
    waitersPoolInv (agentRun s0 evs) ∧
    (∀ (s : AgentState) (e : AgentEvent) (w sock : Nat),
      AgentEffect.served w sock ∈ (agentStep s e).snd →
        s.waitingCreateConn.head? = some w ∧
        (agentStep s e).fst.waitingCreateConn = s.waitingCreateConn.tail) ∧
    (∀ (s : AgentState) (e : AgentEvent) (w : Nat),
      AgentEffect.queuedWaiter w ∈ (agentStep s e).snd →
        (agentStep s e).fst.waitingCreateConn = s.waitingCreateConn ++ [w]) :=
  ⟨waitersPoolInv_run s0 evs h0,
   fun s e w sock hmem => served_only_from_head s e w sock hmem,
   fun s e w hmem => queued_appends_at_tail s e w hmem⟩

/-- Closed instance of C5 at a concrete agent and trace. -/
theorem tunnelAgent_waiters_exclusive_witness :
    waitersPoolInv (agentRun (mkAgent (some 3)) [.createConn 7, .connect 1]) :=
  (tunnelAgent_waiters_exclusive_and_fifo (mkAgent (some 3)) [.createConn 7, .connect 1]
    (fun _ => rfl)).1

/-! ### Client (session + grace period)

Embeds the `Client` class of the current source (the file that also defines
`getGracePeriodRemaining`): the constructor's deferred grace check, the
`online` / `offline` agent listeners, the grace timer, and `close()`.
Times are unix milliseconds as `Int`.  `graceArmedAt` is `some t` when the
grace timer is pending and was armed at time `t` (the source's
`graceTimeout` handle is non-null exactly then); `closeEmits` counts
emissions of the `close` event and `agentDestroys` the calls to
`agent.destroy()`. -/

structure CState where
  createdAt : Int
  isOnline : Bool
  graceArmedAt : Option Int
  closeEmits : Nat
  agentDestroys : Nat
deriving DecidableEq, Repr

/-- Client constructor: `isOnline = false`, `createdAt = Date.now()`, no grace
timer yet (the deferred `setImmediate` check is the `ctorImmediate` event). -/
def mkClient (t : Int) : CState :=
  { createdAt := t, isOnline := false, graceArmedAt := none,
    closeEmits := 0, agentDestroys := 0 }

/-- Events driving a `Client`: the agent's `online` and `offline` signals, the
constructor's deferred grace check, the grace timer firing, and an explicit
`close()` call.  Each carries the current time in ms. -/
inductive CEvent where
  | agentOnline (t : Int)
  | agentOffline (t : Int)
  | ctorImmediate (t : Int)
  | graceFire (t : Int)
  | closeCall (t : Int)
deriving DecidableEq, Repr

/-- Body of `close()`: `_clearGracePeriod(); this.agent.destroy();
this.emit('close')` — with no idempotency guard. -/
def closeBody (s : CState) : CState :=
  { s with graceArmedAt := none,
           agentDestroys := s.agentDestroys + 1,
           closeEmits := s.closeEmits + 1 }

/-- One step of the client, translated from the constructor's listeners,
`_setGracePeriod` / `_clearGracePeriod` and `close()`.  The grace timer fires
by calling `close()`. -/
def clientStep (s : CState) : CEvent → CState
  | .agentOnline _ => { s with isOnline := true, graceArmedAt := none }
  | .agentOffline t => { s with isOnline := false, graceArmedAt := some t }
  | .ctorImmediate t => if s.isOnline then s else { s with graceArmedAt := some t }
  | .graceFire _ => closeBody s
  | .closeCall _ => closeBody s

def clientRun (s : CState) : List CEvent → CState
  | [] => s
  | e :: es => clientRun (clientStep s e) es

/-- Which client events the runtime can deliver: the grace timer armed at time
`a` with period `gp` fires only at `a + gp` while still armed
(`clearTimeout` removes it otherwise). -/
def clientEventOk (gp : Int) (s : CState) : CEvent → Prop
  | .graceFire t => s.graceArmedAt = some (t - gp)
  | _ => True

instance (gp : Int) (s : CState) (e : CEvent) : Decidable (clientEventOk gp s e) := by
  cases e <;> simp only [clientEventOk] <;> infer_instance

/-- Validity of a whole client event trace. -/
inductive CTraceOk (gp : Int) : CState → List CEvent → Prop
  | nil (s : CState) : CTraceOk gp s []
  | cons {s : CState} {e : CEvent} {es : List CEvent} :
      clientEventOk gp s e → CTraceOk gp (clientStep s e) es →
      CTraceOk gp s (e :: es)

/-- Translation of `getGracePeriodRemaining()`: returns 0 when no grace timer
is pending (or `createdAt` is falsy), else
`Math.max(0, gracePeriod - (Date.now() - this.createdAt))` — note that it
measures elapsed time from `createdAt`, not from when the timer was armed. -/
def getGracePeriodRemaining (gp : Int) (s : CState) (now : Int) : Int :=
  if s.graceArmedAt = none ∨ s.createdAt = 0 then 0
  else max 0 (gp - (now - s.createdAt))

/-- The instant the pending grace timer will fire: `_setGracePeriod` arms
`setTimeout(.., gracePeriod)`, so a timer armed at `a` fires at `a + gp`. -/
def graceFireTime (gp : Int) (s : CState) : Option Int :=
  s.graceArmedAt.map (fun a => a + gp)

/-- `Math.ceil(x / 1000)` for the nonnegative integers produced here (the
public front-end's Retry-After computation). -/
def jsCeil1000 (x : Int) : Int := Int.ediv (x + 999) 1000

/-- Claim C2 is contradicted by the code: for a client created at t=100 that
went online at t=1000 and offline at t=5000 (grace period 30000 ms, so the
timer armed at 5000 fires at 35000), `getGracePeriodRemaining` at t=10000
returns 20100 — measured from `createdAt` — while the timer fires 25000 ms
later; the front-end's Retry-After would be 21 s instead of the 25 s until
close. -/
theorem client_grace_remaining_measured_from_creation :
    getGracePeriodRemaining 30000
        (clientRun (mkClient 100)
          [.ctorImmediate 105, .agentOnline 1000, .agentOffline 5000]) 10000 = 20100 ∧
    graceFireTime 30000
        (clientRun (mkClient 100)
          [.ctorImmediate 105, .agentOnline 1000, .agentOffline 5000]) = some 35000 ∧
    (35000 : Int) - 10000 = 25000 ∧
    (20100 : Int) ≠ 25000 ∧
    jsCeil1000 20100 = 21 ∧
    (21 : Int) ≠ 25 := by
  refine ⟨by decide, by decide, by decide, by decide, by decide, by decide⟩

/-- Marks the events whose handler runs the body of `close()`. -/
def isCloseEvent : CEvent → Bool
  | .graceFire _ => true
  | .closeCall _ => true
  | _ => false

theorem clientStep_closeEmits (s : CState) (e : CEvent) :
    (clientStep s e).closeEmits =
      s.closeEmits + (if isCloseEvent e then 1 else 0) := by
  cases e with
  | agentOnline t => rfl
  | agentOffline t => rfl
  | ctorImmediate t =>
    by_cases h : s.isOnline = true
    · simp [clientStep, isCloseEvent, h]
    · simp [clientStep, isCloseEvent, h]
  | graceFire t => rfl
  | closeCall t => rfl

/-- Amended claim C10: a firing grace timer emits exactly one `close` and
disarms the timer; an `online` signal cancels any pending timer and emits no
`close`; but `close()` is not idempotent — every invocation (also on an
already-closed client) emits one further `close`, so over a whole trace the
number of `close` emissions equals the number of `close()` invocations plus
grace-timer firings. -/
theorem client_close_emission_accounting
    (gp : Int) (s0 : CState) (evs : List CEvent) (_hok : CTraceOk gp s0 evs) :
    (clientRun s0 evs).closeEmits =
      s0.closeEmits + evs.countP (fun e => isCloseEvent e) ∧
    (∀ t : Int, (clientStep (clientRun s0 evs) (.agentOnline t)).graceArmedAt = none ∧
      (clientStep (clientRun s0 evs) (.agentOnline t)).closeEmits =
        (clientRun s0 evs).closeEmits) ∧
    (∀ (s : CState) (t : Int), (clientStep s (.graceFire t)).closeEmits = s.closeEmits + 1 ∧
      (clientStep s (.graceFire t)).graceArmedAt = none) := by
  refine ⟨?_, fun t => ⟨rfl, rfl⟩, fun s t => ⟨rfl, rfl⟩⟩
  clear _hok
  induction evs generalizing s0 with
  | nil => simp [clientRun]
  | cons e es ih =>
    rw [clientRun, ih (clientStep s0 e), clientStep_closeEmits]
    rw [List.countP_cons]
    by_cases h : isCloseEvent e
    · simp [h]
      omega
    · simp [h]

/-- Closed instance of the amended C10 claim: a trace that goes offline and
lets the grace timer fire emits exactly one `close`. -/
theorem client_close_emission_accounting_witness :
    (clientRun (mkClient 1) [.agentOffline 5, .graceFire 30005]).closeEmits =
      (mkClient 1).closeEmits +
        List.countP (fun e => isCloseEvent e)
          [CEvent.agentOffline 5, CEvent.graceFire 30005] :=
  (client_close_emission_accounting 30000 (mkClient 1)
    [.agentOffline 5, .graceFire 30005]
    (CTraceOk.cons (by decide) (CTraceOk.cons (by decide) (CTraceOk.nil _)))).1

/-- Counterexample to claim C10 as stated: calling `close()` twice on the same
client emits the `close` event twice — the second call on the already-closed
client emits an additional `close` and changes observable state (a second
`agent.destroy()`). -/
theorem client_close_second_call_emits_again :
    (clientStep (clientRun (mkClient 1) [.ctorImmediate 2, .agentOnline 3])
        (.closeCall 10)).closeEmits = 1 ∧
    (clientStep (clientStep (clientRun (mkClient 1) [.ctorImmediate 2, .agentOnline 3])
        (.closeCall 10)) (.closeCall 11)).closeEmits = 2 ∧
    (clientStep (clientStep (clientRun (mkClient 1) [.ctorImmediate 2, .agentOnline 3])
        (.closeCall 10)) (.closeCall 11)).agentDestroys = 2 ∧
    clientStep (clientStep (clientRun (mkClient 1) [.ctorImmediate 2, .agentOnline 3])
        (.closeCall 10)) (.closeCall 11) ≠
      clientStep (clientRun (mkClient 1) [.ctorImmediate 2, .agentOnline 3])
        (.closeCall 10) := by
  refine ⟨by decide, by decide, by decide, by decide⟩

/-! ### Admin front-end: subdomain validation regex

Embeds the anchored regex of the `GET /:id` route,
`^(?:[a-z0-9][a-z0-9\-]{4,63}[a-z0-9]|[a-z0-9]{4,63})$`, as a decidable
matcher.  With both ends anchored, a string matches the first alternative
iff it splits as one char of `[a-z0-9]`, between 4 and 63 chars of
`[a-z0-9-]`, and one char of `[a-z0-9]` — i.e. iff its length is between 6
and 65, its first and last characters are lowercase alphanumerics, and all
characters in between lie in `[a-z0-9-]`; it matches the second alternative
iff it is 4 to 63 lowercase alphanumerics. -/

def isLowerAlnum (c : Char) : Bool :=
  ('a' ≤ c && c ≤ 'z') || ('0' ≤ c && c ≤ '9')

def isLowerAlnumHyphen (c : Char) : Bool :=
  isLowerAlnum c || c = '-'

/-- First alternative `[a-z0-9][a-z0-9\-]{4,63}[a-z0-9]` (anchored). -/
def matchesAlt1 (cs : List Char) : Bool :=
  6 ≤ cs.length && cs.length ≤ 65 &&
  (match cs.head?, cs.getLast? with
   | some a, some b =>
     isLowerAlnum a && isLowerAlnum b && (cs.drop 1).dropLast.all isLowerAlnumHyphen
   | _, _ => false)

/-- Second alternative `[a-z0-9]{4,63}` (anchored). -/
def matchesAlt2 (cs : List Char) : Bool :=
  4 ≤ cs.length && cs.length ≤ 63 && cs.all isLowerAlnum

/-- The subdomain validation test in the admin `GET /:id` route. -/
def matchesSubdomainRegex (s : String) : Bool :=
  matchesAlt1 s.data || matchesAlt2 s.data

/-- Claim C3 is contradicted by the code: the validation regex accepts a
64-character subdomain (here 64 times `a`), although the route's own comment
and error message limit subdomains to 63 characters; the claim's "every
string accepted by the validation regex has length at most 63" is false.
The regex even accepts 65 characters, and rejects `a-bc` (length 4 with an
internal hyphen), which the claimed characterisation accepts. -/
theorem admin_subdomain_regex_accepts_64_chars :
    matchesSubdomainRegex (String.mk (List.replicate 64 'a')) = true ∧
    (String.mk (List.replicate 64 'a')).length = 64 ∧
    ¬((String.mk (List.replicate 64 'a')).length ≤ 63) ∧
    matchesSubdomainRegex (String.mk (List.replicate 65 'a')) = true ∧
    matchesSubdomainRegex "a-bc" = false := by
  refine ⟨by decide, by decide, by decide, by decide, by decide⟩

/-! ### Public front-end request routing

Embeds the `server.on('request')` handler: the `/healthz` short-circuit, the
missing-`Host` 400, the fall-through to the admin app when no subdomain can
be derived, and the four client cases.  The tldjs-based subdomain extraction
and the registry lookup are passed in as functions; `ClientView` carries the
client fields the handler reads (`isOnline`, `graceTimeout` non-null,
`getGracePeriodRemaining()` at this instant, `hasAvailableSockets()`). -/

structure ClientView where
  isOnline : Bool
  graceActive : Bool
  graceRemainingMs : Int
  hasAvailableSockets : Bool
deriving DecidableEq, Repr

/-- Outcome of the public request handler, one constructor per exit point of
the source, carrying what the source writes on that exit. -/
inductive PublicAction where
  | healthz
  | badRequestNoHost
  | adminFallback
  | tunnelNotFound
  | graceUnavailable (retryAfterSecs : Int)
  | busyUnavailable (retryAfterSecs : Int)
  | handleRequest
deriving DecidableEq, Repr

/-- The HTTP status code set on each exit (from the `res.statusCode`
assignments; `none` when the request is delegated). -/
def publicActionStatus : PublicAction → Option Nat
  | .healthz => some 200
  | .badRequestNoHost => some 400
  | .adminFallback => none
  | .tunnelNotFound => some 404
  | .graceUnavailable _ => some 503
  | .busyUnavailable _ => some 503
  | .handleRequest => none

/-- The status message set on each exit (from the `res.statusMessage`
assignments). -/
def publicActionMessage : PublicAction → Option String
  | .tunnelNotFound => some "Tunnel Not Found"
  | .graceUnavailable _ => some "Service Temporarily Unavailable"
  | .busyUnavailable _ => some "Service Unavailable"
  | _ => none

/-- Translation of the `server.on('request')` handler.  `host` is `none` for
a missing or empty `Host` header, `subOf` is `GetClientIdFromHostname`
(`none` when no subdomain can be derived), and `lookup` is
`manager.getClient`. -/
def publicDispatch (retryAfterCfg : Int) (url : String) (host : Option String)
    (subOf : String → Option String) (lookup : String → Option ClientView) :
    PublicAction :=
  if url = "/healthz" then .healthz
  else
    match host with
    | none => .badRequestNoHost
    | some h =>
      match subOf h with
      | none => .adminFallback
      | some clientId =>
        match lookup clientId with
        | none => .tunnelNotFound
        | some c =>
          if !c.isOnline && c.graceActive then
            .graceUnavailable (jsCeil1000 c.graceRemainingMs)
          else if c.isOnline && !c.hasAvailableSockets then
            .busyUnavailable retryAfterCfg
          else .handleRequest

/-- Claim C6: for a public request whose Host resolves to a subdomain, no
registered client gives 404 `Tunnel Not Found`; a client offline with an
active grace timer gives 503 `Service Temporarily Unavailable` with
Retry-After `ceil(remaining/1000)`; an online client without available
sockets gives 503 `Service Unavailable` with the configured Retry-After; any
other client state delegates to `client.handleRequest`. -/
theorem public_routing_cases
    (retryAfterCfg : Int) (url : String) (h sub : String)
    (subOf : String → Option String) (lookup : String → Option ClientView)
    (hurl : url ≠ "/healthz") (hsub : subOf h = some sub) :
    (lookup sub = none →
      publicDispatch retryAfterCfg url (some h) subOf lookup = .tunnelNotFound ∧
      publicActionStatus .tunnelNotFound = some 404 ∧
      publicActionMessage .tunnelNotFound = some "Tunnel Not Found") ∧
    (∀ c : ClientView, lookup sub = some c →
      c.isOnline = false → c.graceActive = true →
      publicDispatch retryAfterCfg url (some h) subOf lookup =
        .graceUnavailable (jsCeil1000 c.graceRemainingMs) ∧
      publicActionStatus (.graceUnavailable (jsCeil1000 c.graceRemainingMs)) = some 503 ∧
      publicActionMessage (.graceUnavailable (jsCeil1000 c.graceRemainingMs)) =
        some "Service Temporarily Unavailable") ∧
    (∀ c : ClientView, lookup sub = some c →
      c.isOnline = true → c.hasAvailableSockets = false →
      publicDispatch retryAfterCfg url (some h) subOf lookup =
        .busyUnavailable retryAfterCfg ∧
      publicActionStatus (.busyUnavailable retryAfterCfg) = some 503 ∧
      publicActionMessage (.busyUnavailable retryAfterCfg) = some "Service Unavailable") ∧
    (∀ c : ClientView, lookup sub = some c →
      (c.isOnline = true ∧ c.hasAvailableSockets = true) ∨
        (c.isOnline = false ∧ c.graceActive = false) →
      publicDispatch retryAfterCfg url (some h) subOf lookup = .handleRequest) := by
  refine ⟨?_, ?_, ?_, ?_⟩
  · intro hnone
    refine ⟨?_, rfl, rfl⟩
    simp only [publicDispatch, if_neg hurl, hsub, hnone]
  · intro c hc hoff hgrace
    refine ⟨?_, rfl, rfl⟩
    simp only [publicDispatch, if_neg hurl, hsub, hc, hoff, hgrace]
    rfl
  · intro c hc hon hnosock
    refine ⟨?_, rfl, rfl⟩
    simp only [publicDispatch, if_neg hurl, hsub, hc, hon, hnosock]
    rfl
  · intro c hc hcase
    simp only [publicDispatch, if_neg hurl, hsub, hc]
    rcases hcase with ⟨hon, hsock⟩ | ⟨hoff, hgrace⟩
    · simp [hon, hsock]
    · simp [hoff, hgrace]

/-- Closed instance of C6: a host resolving to an unknown subdomain is
answered 404 `Tunnel Not Found`. -/
theorem public_routing_cases_witness :
    publicDispatch 5 "/" (some "missing.example.com")
      (fun _ => some "missing") (fun _ => none) = .tunnelNotFound :=
  ((public_routing_cases 5 "/" "missing.example.com" "missing"
    (fun _ => some "missing") (fun _ => none)
    (by decide) rfl).1 rfl).1

/-! ### HMAC authentication (HmacAuthenticator + NonceCache)

Embeds `HmacAuthenticator.validateRequest` with its helpers
(`parseAuthorizationHeader`, `validateTimestamp`, `validateNonce`,
`buildMessage`, `verifySignature`) and the `NonceCache` class.  The
HMAC-SHA256 computation itself is external cryptography and is passed in as
a function `hmacHex` from message to lowercase hex digest; everything around
it is translated from the source.  `nowSec` is `Math.floor(Date.now()/1000)`
and `nowMs` is `Date.now()`. -/

def jsIsSpace (c : Char) : Bool :=
  c = ' ' || c = '\t' || c = '\n' || c = '\r' || c = '\x0b' || c = '\x0c'

def jsLeadingDigits (cs : List Char) : Option Nat :=
  let ds := cs.takeWhile Char.isDigit
  if ds.isEmpty then none
  else some (ds.foldl (fun a c => a * 10 + (c.toNat - 48)) 0)

/-- JS `parseInt(s, 10)`: skip whitespace, optional sign, longest digit run;
`none` models `NaN`. -/
def parseIntJS (s : String) : Option Int :=
  match s.data.dropWhile jsIsSpace with
  | '-' :: rest => (jsLeadingDigits rest).map (fun n => -(n : Int))
  | '+' :: rest => (jsLeadingDigits rest).map (fun n => (n : Int))
  | cs => (jsLeadingDigits cs).map (fun n => (n : Int))

def isHexChar (c : Char) : Bool :=
  ('0' ≤ c && c ≤ '9') || ('a' ≤ c && c ≤ 'f') || ('A' ≤ c && c ≤ 'F')

def stripCaseInsensitive : List Char → List Char → Option (List Char)
  | [], cs => some cs
  | _ :: _, [] => none
  | p :: ps, c :: cs =>
    if c.toLower = p.toLower then stripCaseInsensitive ps cs else none

/-- Matcher for `/^HMAC\s+sha256=([a-fA-F0-9]+)$/i`, returning the captured
hex signature. -/
def parseAuthorizationHeader (a : String) : Option String :=
  match stripCaseInsensitive "HMAC".data a.data with
  | none => none
  | some rest =>
    let ws := rest.takeWhile jsIsSpace
    let rest2 := rest.dropWhile jsIsSpace
    if ws.isEmpty then none
    else
      match stripCaseInsensitive "sha256=".data rest2 with
      | none => none
      | some sig =>
        if sig.isEmpty then none
        else if sig.all isHexChar then some (String.mk sig) else none

def hexNibble (c : Char) : Option Nat :=
  if '0' ≤ c && c ≤ '9' then some (c.toNat - 48)
  else if 'a' ≤ c && c ≤ 'f' then some (c.toNat - 87)
  else if 'A' ≤ c && c ≤ 'F' then some (c.toNat - 55)
  else none

/-- `Buffer.from(s, 'hex')`: decodes hex pairs, stopping at the first
incomplete or invalid pair. -/
def hexBytes : List Char → List Nat
  | c1 :: c2 :: rest =>
    (match hexNibble c1, hexNibble c2 with
     | some hi, some lo => (hi * 16 + lo) :: hexBytes rest
     | _, _ => [])
  | _ => []

/-- `verifySignature`: decode both hex strings, compare lengths, then compare
bytes (`crypto.timingSafeEqual`; timing is not modelled, only the value). -/
def verifySignature (provided expected : String) : Bool :=
  let pb := hexBytes provided.data
  let eb := hexBytes expected.data
  if pb.length ≠ eb.length then false else pb == eb

/-- `buildMessage`: `METHOD + PATH + TIMESTAMP + NONCE + BODY`. -/
def buildMessage (method path timestamp nonce body : String) : String :=
  method ++ path ++ timestamp ++ nonce ++ body

/-- The `NonceCache` class: a map from nonce string to expiry epoch-ms.
`has`/`add` call `.toString()` on their argument, so string keys are stored
as-is and numeric keys as their decimal representation. -/
structure NCache where
  entries : List (String × Int)
  ttlMs : Int
deriving DecidableEq, Repr

def mkNCache (ttlSeconds : Int) : NCache :=
  { entries := [], ttlMs := ttlSeconds * 1000 }

/-- `NonceCache.has`: false when absent; an expired entry is deleted and
reported absent. -/
def ncacheHas (c : NCache) (key : String) (nowMs : Int) : Bool × NCache :=
  match List.lookup key c.entries with
  | none => (false, c)
  | some expiry =>
    if nowMs ≥ expiry then
      (false, { c with entries := c.entries.filter (fun p => p.fst ≠ key) })
    else (true, c)

/-- `NonceCache.add`: stores the key with expiry `now + ttl` (`Map.set`
overwrites). -/
def ncacheAdd (c : NCache) (key : String) (nowMs : Int) : NCache :=
  { c with entries := (key, nowMs + c.ttlMs) :: c.entries.filter (fun p => p.fst ≠ key) }

structure HmacConfig where
  timestampTolerance : Int
  nonceThreshold : Int
deriving DecidableEq, Repr

/-- The request fields `validateRequest` reads.  `body` is the string
`req.body ? JSON.stringify(req.body) : ''`. -/
structure AuthRequest where
  method : String
  path : String
  authorization : Option String
  xTimestamp : Option String
  xNonce : Option String
  body : String
deriving DecidableEq, Repr

inductive AuthResult where
  | ok
  | fail (reasonCode : String)
deriving DecidableEq, Repr

/-- Translation of `HmacAuthenticator.validateRequest`: header extraction,
authorization parsing, timestamp check, nonce checks (numeric, threshold
window, replay via `nonceCache.has(parseInt(nonce))`), signature check, and
— only on full success — `nonceCache.add(nonce)` with the *raw header
string*. -/
def validateRequest (cfg : HmacConfig) (hmacHex : String → String)
    (req : AuthRequest) (cache : NCache) (nowSec nowMs : Int) :
    AuthResult × NCache :=
  match req.authorization, req.xTimestamp, req.xNonce with
  | none, _, _ => (.fail "missing_auth_header", cache)
  | some _, none, _ => (.fail "missing_timestamp", cache)
  | some _, some _, none => (.fail "missing_nonce", cache)
  | some auth, some tsStr, some nonceStr =>
    match parseAuthorizationHeader auth with
    | none => (.fail "invalid_auth_format", cache)
    | some signature =>
      match parseIntJS tsStr with
      | none => (.fail "invalid_timestamp", cache)
      | some ts =>
        if |nowSec - ts| > cfg.timestampTolerance then
          (.fail "expired_timestamp", cache)
        else
          match parseIntJS nonceStr with
          | none => (.fail "invalid_nonce", cache)
          | some nonce =>
            if nonce < (ts - cfg.nonceThreshold) * 1000 then
              (.fail "nonce_too_old", cache)
            else if nonce > (ts + cfg.timestampTolerance) * 1000 then
              (.fail "nonce_too_new", cache)
            else
              match ncacheHas cache (toString nonce) nowMs with
              | (true, cache1) => (.fail "replay_detected", cache1)
              | (false, cache1) =>
                let message := buildMessage req.method req.path tsStr nonceStr req.body
                let expected := hmacHex message
                if verifySignature signature expected = false then
                  (.fail "invalid_signature", cache1)
                else
                  (.ok, ncacheAdd cache1 nonceStr nowMs)

def c7cfg : HmacConfig := { timestampTolerance := 60, nonceThreshold := 3600 }

/-- Stand-in deterministic digest function; only the control flow around it
matters for the replay property. -/
def c7hmac : String → String := fun _ => "ab"

/-- A request whose nonce header `01700000000000` is numeric but not the
canonical decimal representation of its parsed value `1700000000000`. -/
def c7req : AuthRequest :=
  { method := "GET", path := "/myapp",
    authorization := some "HMAC sha256=ab",
    xTimestamp := some "1700000000",
    xNonce := some "01700000000000",
    body := "" }

/-- The same request with the canonical nonce string. -/
def c7reqCanonical : AuthRequest :=
  { c7req with xNonce := some "1700000000000" }

/-- Claim C7 is contradicted by the code: `add` caches the raw nonce header
string while the replay check looks up the decimal representation of
`parseInt(nonce)`, so a request whose accepted nonce is written
non-canonically (here with a leading zero) is accepted *again* when replayed
within the TTL, instead of failing with `replay_detected`; with the
canonical spelling the replay is detected. -/
theorem hmac_replay_check_misses_noncanonical_nonce :
    (validateRequest c7cfg c7hmac c7req (mkNCache 7200)
        1700000000 1700000000123).fst = .ok ∧
    (validateRequest c7cfg c7hmac c7req
        (validateRequest c7cfg c7hmac c7req (mkNCache 7200)
          1700000000 1700000000123).snd
        1700000001 1700000001123).fst = .ok ∧
    (validateRequest c7cfg c7hmac c7reqCanonical (mkNCache 7200)
        1700000000 1700000000123).fst = .ok ∧
    (validateRequest c7cfg c7hmac c7reqCanonical
        (validateRequest c7cfg c7hmac c7reqCanonical (mkNCache 7200)
          1700000000 1700000000123).snd
        1700000001 1700000001123).fst = .fail "replay_detected" := by
  refine ⟨by decide, by decide, by decide, by decide⟩

/-! ### ClientManager (registry, port pool, reservation)

Embeds the `ClientManager` class: the registry (keyed by id string, with
JavaScript property-assignment overwrite semantics), the `tunnels` counter,
the port pool (`_getPort` / `_releasePort`), `removeClient`, and `newClient`.
`newClient` is split at its only `await`: `newClientSync` performs everything
up to and including the registry insertion (which the source does *before*
awaiting `agent.listen`), and `newClientFinish` consumes the listen outcome.
Randomness (`hri.random()`) is an oracle argument `freshId`, and the
existing client's `getGracePeriodRemaining()` at call time is the oracle
argument `graceRemainingMs`.  Each operation also returns the list of ids
whose `client.close()` it invoked; the `close` handler wired by the manager
re-enters `removeClient`, which no-ops because the registry entry is deleted
before `client.close()` is called. -/

inductive IdentKind where
  | ip
  | token
deriving DecidableEq, Repr

/-- A client identifier `{ type: 'token'|'ip', value: string }` (the source's
field `type` is called `kind` here). -/
structure Identifier where
  kind : IdentKind
  value : String
deriving DecidableEq, Repr

/-- The client fields the manager reads and stores. -/
structure MClient where
  identifier : Identifier
  port : Option Nat
  isOnline : Bool
  graceActive : Bool
deriving DecidableEq, Repr

structure MConfig where
  strictMode : Bool
  portRangeStart : Option Nat
  portRangeEnd : Option Nat
deriving DecidableEq, Repr

/-- Truthiness of `this.portRangeStart && this.portRangeEnd` (ports are
nonzero when configured). -/
def MConfig.rangeConfigured (cfg : MConfig) : Bool :=
  cfg.portRangeStart.isSome && cfg.portRangeEnd.isSome

structure MState where
  clients : List (String × MClient)
  tunnels : Int
  availablePorts : List Nat
  usedPorts : List Nat
deriving DecidableEq, Repr

/-- Constructor with a configured port range: fills the pool with
`portRangeStart .. portRangeEnd`. -/
def initMState (lo hi : Nat) : MState :=
  { clients := [], tunnels := 0,
    availablePorts := List.range' lo (hi + 1 - lo), usedPorts := [] }

/-- Constructor without a port range. -/
def emptyMState : MState :=
  { clients := [], tunnels := 0, availablePorts := [], usedPorts := [] }

def cfgRange (lo hi : Nat) (strict : Bool) : MConfig :=
  { strictMode := strict, portRangeStart := some lo, portRangeEnd := some hi }

def cfgNoRange (strict : Bool) : MConfig :=
  { strictMode := strict, portRangeStart := none, portRangeEnd := none }

def eraseKey (l : List (String × MClient)) (id : String) : List (String × MClient) :=
  l.filter (fun p => p.fst ≠ id)

/-- `clients[id] = client` — property assignment overwrites any previous
binding of the same key. -/
def minsert (s : MState) (id : String) (c : MClient) : MState :=
  { s with clients := (id, c) :: eraseKey s.clients id }

inductive PortAlloc where
  | ok (port : Option Nat) (s : MState)
  | noPorts
deriving DecidableEq, Repr

/-- `_getPort`: with an empty pool, throws `No available ports in range` when
a range is configured, else returns `undefined` (ephemeral port); otherwise
shifts the head of the pool into the used-set. -/
def getPort (cfg : MConfig) (s : MState) : PortAlloc :=
  match s.availablePorts with
  | [] => if cfg.rangeConfigured then .noPorts else .ok none s
  | p :: rest =>
    .ok (some p) { s with availablePorts := rest, usedPorts := s.usedPorts ++ [p] }

/-- `_releasePort`: no-op for a falsy port or unconfigured range; returns the
port to the pool only if the used-set still contains it. -/
def releasePort (cfg : MConfig) (s : MState) (port : Option Nat) : MState :=
  match port with
  | none => s
  | some p =>
    if cfg.rangeConfigured = false then s
    else if p ∈ s.usedPorts then
      { s with usedPorts := s.usedPorts.erase p,
               availablePorts := s.availablePorts ++ [p] }
    else s

/-- `removeClient`: no-op for an unknown id; otherwise releases the client's
port, decrements `tunnels`, deletes the entry, and calls `client.close()`
(returned in the closed-ids list; the re-entrant `removeClient` from the
`close` handler finds no entry). -/
def removeClient (cfg : MConfig) (s : MState) (id : String) : MState × List String :=
  match List.lookup id s.clients with
  | none => (s, [])
  | some c =>
    let s1 := releasePort cfg s c.port
    ({ s1 with tunnels := s1.tunnels - 1, clients := eraseKey s1.clients id }, [id])

/-- The id-resolution branch of `newClient` (steps 1-4 of the source):
`none` models the strict-mode `reserved` throw; otherwise returns the id to
create, the state after any `removeClient`, and the closed client ids. -/
def newClientBranch (cfg : MConfig) (s : MState) (reqId : String)
    (ident : Identifier) (freshId : String) :
    Option (String × MState × List String) :=
  match List.lookup reqId s.clients with
  | none => some (reqId, s, [])
  | some ex =>
    if ex.graceActive && !ex.isOnline then
      if ex.identifier = ident then
        some (reqId, (removeClient cfg s reqId).fst, (removeClient cfg s reqId).snd)
      else if cfg.strictMode then none
      else some (freshId, s, [])
    else
      if ex.identifier = ident then
        some (reqId, (removeClient cfg s reqId).fst, (removeClient cfg s reqId).snd)
      else some (freshId, s, [])

inductive Phase1Out where
  | reservedErr (remainingSeconds : Int)
  | noPortsErr (s : MState) (closed : List String)
  | pending (id : String) (port : Option Nat) (s : MState) (closed : List String)
deriving DecidableEq, Repr

/-- The synchronous prefix of `newClient`, up to and including
`clients[id] = client` — everything that happens before `await
agent.listen()`. -/
def newClientSync (cfg : MConfig) (s : MState) (reqId : String)
    (ident : Identifier) (freshId : String) (graceRemainingMs : Int) :
    Phase1Out :=
  match newClientBranch cfg s reqId ident freshId with
  | none => .reservedErr (jsCeil1000 graceRemainingMs)
  | some (id, s1, closed) =>
    match getPort cfg s1 with
    | .noPorts => .noPortsErr s1 closed
    | .ok portOpt s2 =>
      let cl : MClient := { identifier := ident, port := portOpt,
                            isOnline := false, graceActive := false }
      .pending id portOpt (minsert s2 id cl) closed

inductive NewClientResult where
  | reserved (remainingSeconds : Int) (s : MState)
  | noPorts (s : MState) (closed : List String)
  | listenFailed (s : MState) (closed : List String)
  | ok (id : String) (port : Option Nat) (s : MState) (closed : List String)
deriving DecidableEq, Repr

def NewClientResult.state : NewClientResult → MState
  | .reserved _ s => s
  | .noPorts s _ => s
  | .listenFailed s _ => s
  | .ok _ _ s _ => s

/-- The rest of `newClient` after the awaited `agent.listen()` resolves
(`listenOk = true`: increment `stats.tunnels` and return) or rejects
(`listenOk = false`: `removeClient(id)` and rethrow). -/
def newClientFinish (cfg : MConfig) (p : Phase1Out) (origState : MState)
    (listenOk : Bool) : NewClientResult :=
  match p with
  | .reservedErr r => .reserved r origState
  | .noPortsErr s1 closed => .noPorts s1 closed
  | .pending id port s3 closed =>
    if listenOk then
      .ok id port { s3 with tunnels := s3.tunnels + 1 } closed
    else
      .listenFailed (removeClient cfg s3 id).fst
        (closed ++ (removeClient cfg s3 id).snd)

/-- A whole `newClient(reqId, {ip, identifier})` call. -/
def newClientRun (cfg : MConfig) (s : MState) (reqId : String)
    (ident : Identifier) (freshId : String) (graceRemainingMs : Int)
    (listenOk : Bool) : NewClientResult :=
  newClientFinish cfg (newClientSync cfg s reqId ident freshId graceRemainingMs)
    s listenOk

/-- Updates the stored client under `id`. -/
def modifyClient (s : MState) (id : String) (f : MClient → MClient) : MState :=
  { s with clients := s.clients.map (fun p => if p.fst = id then (p.fst, f p.snd) else p) }

/-- Manager-level events: a `newClient` call (with its oracles), an explicit
`removeClient`, the agent `online` / `offline` signals reaching the stored
client, and the client's grace timer firing (which runs `close()` and hence
the manager's `removeClient`). -/
inductive MEvent where
  | enew (reqId : String) (ident : Identifier) (freshId : String)
         (graceRemainingMs : Int) (listenOk : Bool)
  | eremove (id : String)
  | egoOnline (id : String)
  | egoOffline (id : String)
  | egraceFire (id : String)
deriving DecidableEq, Repr

def managerStep (cfg : MConfig) (s : MState) : MEvent → MState
  | .enew reqId ident freshId rem listenOk =>
    (newClientRun cfg s reqId ident freshId rem listenOk).state
  | .eremove id => (removeClient cfg s id).fst
  | .egoOnline id =>
    modifyClient s id (fun c => { c with isOnline := true, graceActive := false })
  | .egoOffline id =>
    modifyClient s id (fun c => { c with isOnline := false, graceActive := true })
  | .egraceFire id =>
    match List.lookup id s.clients with
    | some c => if c.graceActive then (removeClient cfg s id).fst else s
    | none => s

def managerRun (cfg : MConfig) (s : MState) : List MEvent → MState
  | [] => s
  | e :: es => managerRun cfg (managerStep cfg s e) es

theorem lookup_mem {l : List (String × MClient)} {id : String} {c : MClient}
    (h : List.lookup id l = some c) : (id, c) ∈ l := by
  induction l with
  | nil => simp at h
  | cons q t ih =>
    obtain ⟨k, v⟩ := q
    rw [List.lookup] at h
    by_cases he : (id == k) = true
    · simp only [he] at h
      obtain rfl : v = c := by simpa using h
      obtain rfl : id = k := beq_iff_eq.mp he
      exact List.mem_cons_self _ _
    · rw [Bool.not_eq_true] at he
      simp only [he] at h
      exact List.mem_cons_of_mem _ (ih h)

theorem mem_eraseKey {l : List (String × MClient)} {id : String}
    {q : String × MClient} : q ∈ eraseKey l id ↔ q ∈ l ∧ q.fst ≠ id := by
  simp [eraseKey, List.mem_filter]

theorem eraseKey_sublist (l : List (String × MClient)) (id : String) :
    (eraseKey l id).Sublist l := List.filter_sublist l

theorem keys_nodup_eraseKey {l : List (String × MClient)}
    (h : (l.map Prod.fst).Nodup) (id : String) :
    ((eraseKey l id).map Prod.fst).Nodup :=
  List.Nodup.sublist (List.Sublist.map Prod.fst (eraseKey_sublist l id)) h

theorem not_mem_keys_eraseKey (l : List (String × MClient)) (id : String) :
    id ∉ (eraseKey l id).map Prod.fst := by
  intro h
  obtain ⟨q, hq, hfst⟩ := List.mem_map.mp h
  exact (mem_eraseKey.mp hq).2 hfst

/-- Inductive invariant of claim C8 for a configured range `[lo, hi]`: the
available list and the used set are duplicate-free and disjoint, together
they cover exactly `[lo, hi]`, every registered client holds a port from the
used set, and ports identify clients uniquely. -/
structure PoolInv (lo hi : Nat) (s : MState) : Prop where
  nodupAvail : s.availablePorts.Nodup
  nodupUsed : s.usedPorts.Nodup
  disj : ∀ p : Nat, p ∈ s.availablePorts → p ∉ s.usedPorts
  complete : ∀ p : Nat, (p ∈ s.availablePorts ∨ p ∈ s.usedPorts) ↔ (lo ≤ p ∧ p ≤ hi)
  keysNodup : (s.clients.map Prod.fst).Nodup
  clientPort : ∀ q ∈ s.clients, ∃ p : Nat, q.snd.port = some p ∧ p ∈ s.usedPorts
  portsInj : ∀ q1 ∈ s.clients, ∀ q2 ∈ s.clients,
    q1.snd.port = q2.snd.port → q1.fst = q2.fst

theorem poolInv_init (lo hi : Nat) : PoolInv lo hi (initMState lo hi) := by
  refine ⟨List.nodup_range' lo (hi + 1 - lo), List.nodup_nil, ?_, ?_, ?_, ?_, ?_⟩
  · intro p _ hp
    simp [initMState] at hp
  · intro p
    simp only [initMState, List.mem_range'_1, List.not_mem_nil, or_false]
    omega
  · exact List.nodup_nil
  · intro q hq
    simp [initMState] at hq
  · intro q1 hq1 q2 hq2
    simp [initMState] at hq1

theorem removeClient_poolInv (lo hi : Nat) (strict : Bool) (s : MState)
    (id : String) (h : PoolInv lo hi s) :
    PoolInv lo hi (removeClient (cfgRange lo hi strict) s id).fst := by
  cases hlk : List.lookup id s.clients with
  | none => simpa [removeClient, hlk] using h
  | some c =>
    obtain ⟨p, hport, hpused⟩ := h.clientPort (id, c) (lookup_mem hlk)
    have hport' : c.port = some p := hport
    have hstep : (removeClient (cfgRange lo hi strict) s id).fst =
        { clients := eraseKey s.clients id, tunnels := s.tunnels - 1,
          availablePorts := s.availablePorts ++ [p],
          usedPorts := s.usedPorts.erase p } := by
      simp [removeClient, hlk, releasePort, hport', cfgRange,
        MConfig.rangeConfigured, hpused]
    rw [hstep]
    refine ⟨?_, ?_, ?_, ?_, ?_, ?_, ?_⟩
    · rw [List.nodup_append]
      refine ⟨h.nodupAvail, List.nodup_singleton p, ?_⟩
      intro a ha hap
      rw [List.mem_singleton] at hap
      subst hap
      exact h.disj a ha hpused
    · exact h.nodupUsed.erase p
    · intro q hq
      rw [List.mem_append, List.mem_singleton] at hq
      rcases hq with hq | rfl
      · intro hmem
        exact h.disj q hq (List.mem_of_mem_erase hmem)
      · intro hmem
        exact ((h.nodupUsed.mem_erase_iff ).mp hmem).1 rfl
    · intro q
      have h1 := h.complete q
      rw [List.mem_append, List.mem_singleton, h.nodupUsed.mem_erase_iff]
      constructor
      · rintro ((hq | rfl) | ⟨_, hq⟩)
        · exact h1.mp (Or.inl hq)
        · exact h1.mp (Or.inr hpused)
        · exact h1.mp (Or.inr hq)
      · intro hr
        rcases h1.mpr hr with hq | hq
        · exact Or.inl (Or.inl hq)
        · by_cases hqp : q = p
          · exact Or.inl (Or.inr hqp)
          · exact Or.inr ⟨hqp, hq⟩
    · exact keys_nodup_eraseKey h.keysNodup id
    · intro q hq
      obtain ⟨hmem, hne⟩ := mem_eraseKey.mp hq
      obtain ⟨pq, hpq, hpqu⟩ := h.clientPort q hmem
      refine ⟨pq, hpq, ?_⟩
      rw [h.nodupUsed.mem_erase_iff]
      refine ⟨?_, hpqu⟩
      intro heq
      subst heq
      exact hne (h.portsInj q hmem (id, c) (lookup_mem hlk) (by rw [hpq, hport]))
    · intro q1 hq1 q2 hq2
      exact h.portsInj q1 (mem_eraseKey.mp hq1).1 q2 (mem_eraseKey.mp hq2).1

theorem alloc_insert_poolInv (lo hi : Nat) (s1 : MState) (p : Nat)
    (rest : List Nat) (id : String) (ident : Identifier)
    (h : PoolInv lo hi s1) (ha : s1.availablePorts = p :: rest) :
    PoolInv lo hi
      (minsert { s1 with availablePorts := rest, usedPorts := s1.usedPorts ++ [p] }
        id { identifier := ident, port := some p, isOnline := false,
             graceActive := false }) := by
  have hnodup := h.nodupAvail
  rw [ha, List.nodup_cons] at hnodup
  obtain ⟨hpnotrest, hrestnodup⟩ := hnodup
  have hpavail : p ∈ s1.availablePorts := by rw [ha]; exact List.mem_cons_self _ _
  have hpused : p ∉ s1.usedPorts := h.disj p hpavail
  refine ⟨?_, ?_, ?_, ?_, ?_, ?_, ?_⟩
  · exact hrestnodup
  · show (s1.usedPorts ++ [p]).Nodup
    rw [List.nodup_append]
    refine ⟨h.nodupUsed, List.nodup_singleton p, ?_⟩
    intro a haa hap
    rw [List.mem_singleton] at hap
    subst hap
    exact hpused haa
  · show ∀ q : Nat, q ∈ rest → q ∉ s1.usedPorts ++ [p]
    intro q hq
    have hqavail : q ∈ s1.availablePorts := by
      rw [ha]; exact List.mem_cons_of_mem _ hq
    intro hmem
    rw [List.mem_append, List.mem_singleton] at hmem
    rcases hmem with hmem | rfl
    · exact h.disj q hqavail hmem
    · exact hpnotrest hq
  · show ∀ q : Nat, (q ∈ rest ∨ q ∈ s1.usedPorts ++ [p]) ↔ (lo ≤ q ∧ q ≤ hi)
    intro q
    have h1 := h.complete q
    rw [ha, List.mem_cons] at h1
    rw [List.mem_append, List.mem_singleton]
    constructor
    · rintro (hq | hq | rfl)
      · exact h1.mp (Or.inl (Or.inr hq))
      · exact h1.mp (Or.inr hq)
      · exact h1.mp (Or.inl (Or.inl rfl))
    · intro hr
      rcases h1.mpr hr with (rfl | hq) | hq
      · exact Or.inr (Or.inr rfl)
      · exact Or.inl hq
      · exact Or.inr (Or.inl hq)
  · show (((id, (⟨ident, some p, false, false⟩ : MClient)) ::
        eraseKey s1.clients id).map Prod.fst).Nodup
    rw [List.map_cons, List.nodup_cons]
    exact ⟨not_mem_keys_eraseKey s1.clients id, keys_nodup_eraseKey h.keysNodup id⟩
  · intro q hq
    have hq' : q ∈ (id, (⟨ident, some p, false, false⟩ : MClient)) ::
        eraseKey s1.clients id := hq
    rw [List.mem_cons] at hq'
    rcases hq' with rfl | hq'
    · exact ⟨p, rfl, show p ∈ s1.usedPorts ++ [p] by
        rw [List.mem_append, List.mem_singleton]; exact Or.inr rfl⟩
    · obtain ⟨pq, hpq, hpqu⟩ := h.clientPort q (mem_eraseKey.mp hq').1
      exact ⟨pq, hpq, show pq ∈ s1.usedPorts ++ [p] by
        rw [List.mem_append]; exact Or.inl hpqu⟩
  · intro q1 hq1 q2 hq2 hpp
    have hq1' : q1 ∈ (id, (⟨ident, some p, false, false⟩ : MClient)) ::
        eraseKey s1.clients id := hq1
    have hq2' : q2 ∈ (id, (⟨ident, some p, false, false⟩ : MClient)) ::
        eraseKey s1.clients id := hq2
    rw [List.mem_cons] at hq1' hq2'
    rcases hq1' with rfl | hq1' <;> rcases hq2' with rfl | hq2'
    · rfl
    · obtain ⟨pq, hpq, hpqu⟩ := h.clientPort q2 (mem_eraseKey.mp hq2').1
      rw [hpq] at hpp
      have hppq : p = pq := by simpa using hpp
      exact absurd (hppq ▸ hpqu) hpused
    · obtain ⟨pq, hpq, hpqu⟩ := h.clientPort q1 (mem_eraseKey.mp hq1').1
      rw [hpq] at hpp
      have hppq : pq = p := by simpa using hpp
      exact absurd (hppq ▸ hpqu) hpused
    · exact h.portsInj q1 (mem_eraseKey.mp hq1').1 q2 (mem_eraseKey.mp hq2').1 hpp

theorem newClientBranch_state (cfg : MConfig) (s : MState) (reqId : String)
    (ident : Identifier) (freshId : String) {id : String} {s1 : MState}
    {closed : List String}
    (h : newClientBranch cfg s reqId ident freshId = some (id, s1, closed)) :
    s1 = s ∨ s1 = (removeClient cfg s reqId).fst := by
  unfold newClientBranch at h
  cases hlk : List.lookup reqId s.clients with
  | none =>
    rw [hlk] at h
    simp at h
    exact Or.inl h.2.1.symm
  | some ex =>
    rw [hlk] at h
    by_cases hg : (ex.graceActive && !ex.isOnline) = true
    · by_cases hid : ex.identifier = ident
      · simp [hg, hid] at h
        exact Or.inr (congrArg Prod.fst h.2).symm
      · by_cases hs : cfg.strictMode = true
        · simp [hg, hid, hs] at h
        · simp [hg, hid, hs] at h
          exact Or.inl h.2.1.symm
    · by_cases hid : ex.identifier = ident
      · simp [hg, hid] at h
        exact Or.inr (congrArg Prod.fst h.2).symm
      · simp [hg, hid] at h
        exact Or.inl h.2.1.symm

theorem poolInv_tunnels (lo hi : Nat) (s : MState) (t : Int)
    (h : PoolInv lo hi s) : PoolInv lo hi { s with tunnels := t } :=
  ⟨h.nodupAvail, h.nodupUsed, h.disj, h.complete, h.keysNodup,
   h.clientPort, h.portsInj⟩

theorem newClientState_poolInv (lo hi : Nat) (strict : Bool) (s : MState)
    (reqId : String) (ident : Identifier) (freshId : String) (rem : Int)
    (lOk : Bool) (h : PoolInv lo hi s) :
    PoolInv lo hi
      (newClientRun (cfgRange lo hi strict) s reqId ident freshId rem lOk).state := by
  cases hb : newClientBranch (cfgRange lo hi strict) s reqId ident freshId with
  | none =>
    simp only [newClientRun, newClientSync, hb, newClientFinish,
      NewClientResult.state]
    exact h
  | some trip =>
    obtain ⟨id2, s1, closed⟩ := trip
    have h1 : PoolInv lo hi s1 := by
      rcases newClientBranch_state _ _ _ _ _ hb with rfl | rfl
      · exact h
      · exact removeClient_poolInv lo hi strict s reqId h
    cases ha : s1.availablePorts with
    | nil =>
      have hgp : getPort (cfgRange lo hi strict) s1 = .noPorts := by
        simp [getPort, ha, cfgRange, MConfig.rangeConfigured]
      simp only [newClientRun, newClientSync, hb, hgp, newClientFinish,
        NewClientResult.state]
      exact h1
    | cons p rest =>
      have hgp : getPort (cfgRange lo hi strict) s1 =
          .ok (some p) { s1 with availablePorts := rest,
                                 usedPorts := s1.usedPorts ++ [p] } := by
        simp [getPort, ha]
      have h3 := alloc_insert_poolInv lo hi s1 p rest id2 ident h1 ha
      cases lOk with
      | true =>
        simp only [newClientRun, newClientSync, hb, hgp, newClientFinish,
          NewClientResult.state, if_pos]
        exact poolInv_tunnels lo hi _ _ h3
      | false =>
        simp only [newClientRun, newClientSync, hb, hgp, newClientFinish,
          NewClientResult.state, Bool.false_eq_true, if_false]
        exact removeClient_poolInv lo hi strict _ id2 h3

theorem map_fst_modify (l : List (String × MClient)) (id : String)
    (f : MClient → MClient) :
    (l.map (fun p => if p.fst = id then (p.fst, f p.snd) else p)).map Prod.fst =
      l.map Prod.fst := by
  induction l with
  | nil => rfl
  | cons q t ih =>
    simp only [List.map_cons, ih]
    by_cases hq : q.fst = id
    · simp [hq]
    · simp [hq]

theorem modify_port_eq (id : String) (f : MClient → MClient)
    (hf : ∀ c, (f c).port = c.port) (q : String × MClient) :
    (if q.fst = id then (q.fst, f q.snd) else q).snd.port = q.snd.port := by
  by_cases hq : q.fst = id
  · simp [hq, hf]
  · simp [hq]

theorem modify_fst_eq (id : String) (f : MClient → MClient)
    (q : String × MClient) :
    (if q.fst = id then (q.fst, f q.snd) else q).fst = q.fst := by
  by_cases hq : q.fst = id
  · simp [hq]
  · simp [hq]

theorem modifyClient_poolInv (lo hi : Nat) (s : MState) (id : String)
    (f : MClient → MClient) (hf : ∀ c, (f c).port = c.port)
    (h : PoolInv lo hi s) : PoolInv lo hi (modifyClient s id f) := by
  refine ⟨h.nodupAvail, h.nodupUsed, h.disj, h.complete, ?_, ?_, ?_⟩
  · show ((s.clients.map _).map Prod.fst).Nodup
    rw [map_fst_modify]
    exact h.keysNodup
  · intro q hq
    obtain ⟨q0, hq0, rfl⟩ := List.mem_map.mp hq
    rw [modify_port_eq id f hf]
    exact h.clientPort q0 hq0
  · intro q1 hq1 q2 hq2 hpp
    obtain ⟨q10, hq10, rfl⟩ := List.mem_map.mp hq1
    obtain ⟨q20, hq20, rfl⟩ := List.mem_map.mp hq2
    rw [modify_port_eq id f hf, modify_port_eq id f hf] at hpp
    rw [modify_fst_eq, modify_fst_eq]
    exact h.portsInj q10 hq10 q20 hq20 hpp

theorem managerStep_poolInv (lo hi : Nat) (strict : Bool) (s : MState)
    (e : MEvent) (h : PoolInv lo hi s) :
    PoolInv lo hi (managerStep (cfgRange lo hi strict) s e) := by
  cases e with
  | enew reqId ident freshId rem lOk =>
    exact newClientState_poolInv lo hi strict s reqId ident freshId rem lOk h
  | eremove id => exact removeClient_poolInv lo hi strict s id h
  | egoOnline id =>
    exact modifyClient_poolInv lo hi s id
      (fun c => { c with isOnline := true, graceActive := false })
      (fun c => rfl) h
  | egoOffline id =>
    exact modifyClient_poolInv lo hi s id
      (fun c => { c with isOnline := false, graceActive := true })
      (fun c => rfl) h
  | egraceFire id =>
    cases hlk : List.lookup id s.clients with
    | none =>
      show PoolInv lo hi (managerStep (cfgRange lo hi strict) s (.egraceFire id))
      simp only [managerStep, hlk]
      exact h
    | some c =>
      show PoolInv lo hi (managerStep (cfgRange lo hi strict) s (.egraceFire id))
      simp only [managerStep, hlk]
      by_cases hg : c.graceActive = true
      · rw [if_pos hg]
        exact removeClient_poolInv lo hi strict s id h
      · rw [if_neg hg]
        exact h

theorem managerRun_poolInv (lo hi : Nat) (strict : Bool) (s : MState)
    (evs : List MEvent) (h : PoolInv lo hi s) :
    PoolInv lo hi (managerRun (cfgRange lo hi strict) s evs) := by
  induction evs generalizing s with
  | nil => exact h
  | cons e es ih => exact ih _ (managerStep_poolInv lo hi strict s e h)

theorem releasePort_once (cfg : MConfig) (s : MState) (p : Nat)
    (hnd : s.usedPorts.Nodup) :
    releasePort cfg (releasePort cfg s (some p)) (some p) =
      releasePort cfg s (some p) := by
  by_cases hc : cfg.rangeConfigured = false
  · simp [releasePort, hc]
  · by_cases hp : p ∈ s.usedPorts
    · have h1 : releasePort cfg s (some p) =
          { s with usedPorts := s.usedPorts.erase p,
                   availablePorts := s.availablePorts ++ [p] } := by
        simp [releasePort, hc, hp]
      rw [h1]
      have hnot : p ∉ s.usedPorts.erase p := by
        intro hmem
        exact (hnd.mem_erase_iff.mp hmem).1 rfl
      simp [releasePort, hc, hnot]
    · have h1 : releasePort cfg s (some p) = s := by
        simp [releasePort, hc, hp]
      rw [h1]
      exact h1

theorem newClient_noPorts (lo hi : Nat) (strict : Bool) (s : MState)
    (reqId : String) (ident : Identifier) (freshId : String) (rem : Int)
    (lOk : Bool) (hlk : List.lookup reqId s.clients = none)
    (hav : s.availablePorts = []) :
    newClientRun (cfgRange lo hi strict) s reqId ident freshId rem lOk =
      .noPorts s [] := by
  simp [newClientRun, newClientSync, newClientBranch, hlk, getPort, hav,
    cfgRange, MConfig.rangeConfigured, newClientFinish]

/-- Claim C8: starting from a manager constructed with port range
`[lo, hi]`, after any sequence of manager operations the available list and
the used set still partition `[lo, hi]` exactly (no duplicates, disjoint,
jointly covering the range), every live client holds a used port and ports
identify clients uniquely; a release is effective exactly once (the used-set
membership guard makes a second release of the same port a no-op); distinct
live clients hold distinct ports; and `newClient` fails with the
`No available ports in range` error when the configured pool is empty. -/
theorem clientManager_port_pool_partition
    (lo hi : Nat) (strict : Bool) (evs : List MEvent) :
    PoolInv lo hi (managerRun (cfgRange lo hi strict) (initMState lo hi) evs) ∧
    (∀ (s : MState) (p : Nat), s.usedPorts.Nodup →
      releasePort (cfgRange lo hi strict)
          (releasePort (cfgRange lo hi strict) s (some p)) (some p) =
        releasePort (cfgRange lo hi strict) s (some p)) ∧
    (∀ s : MState, PoolInv lo hi s → ∀ q1 ∈ s.clients, ∀ q2 ∈ s.clients,
      q1.fst ≠ q2.fst → q1.snd.port ≠ q2.snd.port) ∧
    (∀ (s : MState) (reqId : String) (ident : Identifier) (freshId : String)
        (rem : Int) (lOk : Bool),
      List.lookup reqId s.clients = none → s.availablePorts = [] →
      newClientRun (cfgRange lo hi strict) s reqId ident freshId rem lOk =
        .noPorts s []) := by
  refine ⟨managerRun_poolInv lo hi strict _ evs (poolInv_init lo hi),
    fun s p hnd => releasePort_once (cfgRange lo hi strict) s p hnd,
    ?_,
    fun s reqId ident freshId rem lOk hlk hav =>
      newClient_noPorts lo hi strict s reqId ident freshId rem lOk hlk hav⟩
  intro s hinv q1 hq1 q2 hq2 hne hpp
  exact hne (hinv.portsInj q1 hq1 q2 hq2 hpp)

/-- Closed instance of C8: the pool invariant after two tunnel creations and
one removal from a pool `[11040, 11045]`. -/
theorem clientManager_port_pool_witness :
    PoolInv 11040 11045
      (managerRun (cfgRange 11040 11045 false) (initMState 11040 11045)
        [ .enew "tunnelx" ⟨.ip, "1.2.3.4"⟩ "rand-a" 0 true
        , .enew "tunnely" ⟨.ip, "5.6.7.8"⟩ "rand-b" 0 true
        , .eremove "tunnelx" ]) :=
  (clientManager_port_pool_partition 11040 11045 false
    [ .enew "tunnelx" ⟨.ip, "1.2.3.4"⟩ "rand-a" 0 true
    , .enew "tunnely" ⟨.ip, "5.6.7.8"⟩ "rand-b" 0 true
    , .eremove "tunnelx" ]).1

/-- Port allocation cannot throw: either no range is configured, or the pool
is non-empty. -/
def allocOk (cfg : MConfig) (s : MState) : Prop :=
  cfg.rangeConfigured = true → s.availablePorts ≠ []

instance (cfg : MConfig) (s : MState) : Decidable (allocOk cfg s) := by
  unfold allocOk
  infer_instance

theorem getPort_ok (cfg : MConfig) (s : MState) (h : allocOk cfg s) :
    ∃ (portOpt : Option Nat) (s' : MState), getPort cfg s = .ok portOpt s' := by
  cases ha : s.availablePorts with
  | nil =>
    cases hc : cfg.rangeConfigured with
    | true => exact absurd ha (h hc)
    | false => exact ⟨none, s, by simp [getPort, ha, hc]⟩
  | cons p rest =>
    exact ⟨some p,
      { s with availablePorts := rest, usedPorts := s.usedPorts ++ [p] },
      by simp [getPort, ha]⟩

theorem removeClient_snd {s : MState} {id : String} {c : MClient}
    (cfg : MConfig) (hlk : List.lookup id s.clients = some c) :
    (removeClient cfg s id).snd = [id] := by
  simp [removeClient, hlk]

/-- Claim C1: with an existing client on `reqId` that is offline with an
active grace timer — (1) a caller with the *same* identifier closes the old
client and (when the listener binds) gets back exactly `reqId`; (2) a caller
with a *different* identifier in strict mode gets the `reserved` error
carrying the remaining grace seconds, whatever the listen outcome; (3) a
caller with a different identifier in silent mode gets the freshly generated
random id, which differs from `reqId` (the generator is the oracle
`freshId`), with no client closed. -/
theorem newClient_grace_reconnect_policy
    (s : MState) (reqId freshId : String) (ident : Identifier) (ex : MClient)
    (rem : Int)
    (hlk : List.lookup reqId s.clients = some ex)
    (hgrace : ex.graceActive = true) (hoff : ex.isOnline = false)
    (hfresh : freshId ≠ reqId) :
    (∀ cfg : MConfig, ex.identifier = ident →
      allocOk cfg (removeClient cfg s reqId).fst →
      ∃ (port : Option Nat) (st : MState),
        newClientRun cfg s reqId ident freshId rem true =
          .ok reqId port st [reqId]) ∧
    (∀ cfg : MConfig, cfg.strictMode = true → ex.identifier ≠ ident →
      ∀ listenOk : Bool,
        newClientRun cfg s reqId ident freshId rem listenOk =
          .reserved (jsCeil1000 rem) s) ∧
    (∀ cfg : MConfig, cfg.strictMode = false → ex.identifier ≠ ident →
      allocOk cfg s →
      ∃ (port : Option Nat) (st : MState),
        newClientRun cfg s reqId ident freshId rem true =
          .ok freshId port st [] ∧ freshId ≠ reqId) := by
  have hg : (ex.graceActive && !ex.isOnline) = true := by rw [hgrace, hoff]; rfl
  refine ⟨?_, ?_, ?_⟩
  · intro cfg hid halloc
    have hbr : newClientBranch cfg s reqId ident freshId =
        some (reqId, (removeClient cfg s reqId).fst,
          (removeClient cfg s reqId).snd) := by
      simp [newClientBranch, hlk, hg, hid]
    obtain ⟨portOpt, s2, hgp⟩ := getPort_ok cfg _ halloc
    have hsync : newClientSync cfg s reqId ident freshId rem =
        .pending reqId portOpt (minsert s2 reqId ⟨ident, portOpt, false, false⟩)
          [reqId] := by
      simp [newClientSync, hbr, hgp, removeClient_snd cfg hlk]
    refine ⟨portOpt,
      { minsert s2 reqId ⟨ident, portOpt, false, false⟩ with
          tunnels := (minsert s2 reqId ⟨ident, portOpt, false, false⟩).tunnels + 1 },
      ?_⟩
    simp [newClientRun, hsync, newClientFinish]
  · intro cfg hstrict hid listenOk
    have hbr : newClientBranch cfg s reqId ident freshId = none := by
      simp [newClientBranch, hlk, hg, hid, hstrict]
    simp [newClientRun, newClientSync, hbr, newClientFinish]
  · intro cfg hstrict hid halloc
    have hbr : newClientBranch cfg s reqId ident freshId =
        some (freshId, s, []) := by
      simp [newClientBranch, hlk, hg, hid, hstrict]
    obtain ⟨portOpt, s2, hgp⟩ := getPort_ok cfg s halloc
    have hsync : newClientSync cfg s reqId ident freshId rem =
        .pending freshId portOpt
          (minsert s2 freshId ⟨ident, portOpt, false, false⟩) [] := by
      simp [newClientSync, hbr, hgp]
    refine ⟨portOpt,
      { minsert s2 freshId ⟨ident, portOpt, false, false⟩ with
          tunnels := (minsert s2 freshId ⟨ident, portOpt, false, false⟩).tunnels + 1 },
      ?_, hfresh⟩
    simp [newClientRun, hsync, newClientFinish]

def c1ident : Identifier := ⟨.ip, "1.2.3.4"⟩

def c1ex : MClient := ⟨c1ident, none, false, true⟩

def c1state : MState :=
  { clients := [("myapp", c1ex)], tunnels := 1,
    availablePorts := [], usedPorts := [] }

/-- Closed instance of C1 (same-identifier reconnection during grace). -/
theorem newClient_grace_reconnect_witness :
    ∃ (port : Option Nat) (st : MState),
      newClientRun (cfgNoRange false) c1state "myapp" c1ident "rand-z" 12000
          true = .ok "myapp" port st ["myapp"] :=
  (newClient_grace_reconnect_policy c1state "myapp" "rand-z" c1ident c1ex 12000
    (by decide) rfl rfl (by decide)).1 (cfgNoRange false) rfl (by decide)

def c9ident : Identifier := ⟨.ip, "9.9.9.9"⟩

/-- Claim C9's first half holds: the entry is in the registry in the state
reached *before* the listen outcome is consumed (so a concurrent lookup of
the same id observes it), and on listen failure the entry is removed, its
pool port released, and the error rethrown.  But the claim's final part is
contradicted by the code: `removeClient` decrements `stats.tunnels`
unconditionally, while the increment only happens after a successful listen,
so after a failed creation from a fresh manager the counter is -1, not the
unchanged 0. -/
theorem clientManager_listen_failure_decrements_tunnels :
    newClientSync (cfgRange 11000 11000 false) (initMState 11000 11000)
        "demo1" c9ident "other-id" 0 =
      .pending "demo1" (some 11000)
        { clients := [("demo1", ⟨c9ident, some 11000, false, false⟩)],
          tunnels := 0, availablePorts := [], usedPorts := [11000] } [] ∧
    List.lookup "demo1"
        [("demo1", (⟨c9ident, some 11000, false, false⟩ : MClient))] =
      some ⟨c9ident, some 11000, false, false⟩ ∧
    newClientRun (cfgRange 11000 11000 false) (initMState 11000 11000)
        "demo1" c9ident "other-id" 0 false =
      .listenFailed
        { clients := [], tunnels := -1,
          availablePorts := [11000], usedPorts := [] } ["demo1"] ∧
    (-1 : Int) ≠ 0 := by
  refine ⟨by decide, by decide, by decide, by decide⟩
